import Mathlib

/-!
A shallow embedding of the open-chained hash table in
`src/hotspot/share/utilities/hashtable.cpp` (`BasicHashtable<F>` /
`Hashtable<T, F>`), together with proofs about its resize, growth-policy,
entry-allocation and verification routines.

Modelling conventions:
* machine integers (`int`, `unsigned int`) are modelled as `Nat`; all the
  quantities involved (table sizes, entry counts, block lengths) are
  non-negative and far below any overflow boundary in the scenarios treated;
* the intrusive `_next` pointer chains are modelled as Lean `List`s: a bucket
  is the list of entries of its chain, head first;
* the shared bit, which the C++ code keeps in the low bit of `_next` and
  re-installs after `set_next` during relocation, is modelled as an explicit
  `Bool` field on the entry;
* a heap allocation that can fail is modelled by an explicit `Bool` argument
  (`alloc_ok`) telling whether the underlying allocation succeeds.
-/

namespace JdkHashtable

/-- A live entry as seen from a bucket chain: its hash code, its payload
(the `literal` of `HashtableEntry<T, F>`), and the shared flag
(`is_shared()` / `set_shared()`). The next-link is implicit in the list
structure of the chain. -/
structure HEntry (α : Type) where
  hash : Nat
  payload : α
  shared : Bool
deriving DecidableEq

/-- A raw entry cell as handed out by the entry allocator
(`BasicHashtableEntry<F>`).  Each field is an `Option`; `none` models a field
the code has not written (fresh carved memory, or a stale value the caller
must overwrite).  `next = some none` models `set_next(NULL)`,
`next = some (some p)` a link to the entry with id `p`. -/
structure Cell (α : Type) where
  hash : Option Nat
  literal : Option α
  next : Option (Option Nat)
deriving DecidableEq

/-- State of a `BasicHashtable<F>` (plus the `Hashtable<T, F>` payloads):

* `table_size`        : `_table_size`
* `buckets`           : `_buckets`, each bucket the list of its chain
* `entry_size`        : `_entry_size` (bytes per entry)
* `free_list`         : `_free_list`, the chain of reclaimed entry cells
* `room`              : `_end_block - _first_free_entry`, the bytes left in
                        the current block
* `entry_blocks`      : the byte lengths of the blocks appended to
                        `_entry_blocks`, most recent first
* `number_of_entries` : `_number_of_entries`
-/
structure BasicHashtable (α : Type) where
  table_size : Nat
  buckets : List (List (HEntry α))
  entry_size : Nat
  free_list : List (Cell α)
  room : Nat
  entry_blocks : List Nat
  number_of_entries : Nat
deriving DecidableEq

/-- Modelled from the spec: `hash_to_index(hash)` is `hash mod table_size`
computed from the *current* table size (the member function lives in
`hashtable.hpp`, which is not part of the translated unit; the spec fixes it
as `hash mod table_size`).  The current `_table_size` is passed explicitly. -/
def hash_to_index (table_size hash : Nat) : Nat :=
  hash % table_size

/-- Push entry `x` on the head of bucket `i`: models
`p->set_next(buckets_new[i].get_entry()); buckets_new[i].set_entry(p)`. -/
def consAt {α : Type} (bs : List (List (HEntry α))) (i : Nat) (x : HEntry α) :
    List (List (HEntry α)) :=
  bs.set i (x :: bs.getD i [])

/-- `BasicHashtable<F>::resize(int new_size)` (hashtable.cpp lines 134-176).
`alloc_ok` tells whether `NEW_C_HEAP_ARRAY2_RETURN_NULL` succeeds; on failure
the function returns `false` with the table untouched.  On success it clears a
fresh bucket array, switches `_table_size` to `new_size` *before* the move
(so `hash_to_index` already uses the new size), walks every old bucket in
index order and every chain head-first, re-inserting each entry at the head of
its recomputed bucket while preserving the shared bit, frees the old bucket
array and installs the new one. -/
def resize {α : Type} (t : BasicHashtable α) (new_size : Nat) (alloc_ok : Bool) :
    Bool × BasicHashtable α :=
  if alloc_ok = false then
    (false, t)
  else
    -- new buckets, all cleared
    let buckets_new : List (List (HEntry α)) := List.replicate new_size []
    let table_size_old := t.table_size
    -- _table_size is switched to new_size here; hash_to_index below uses it
    let buckets_new :=
      (List.range table_size_old).foldl
        (fun bs index_old =>
          (t.buckets.getD index_old []).foldl
            (fun bs p =>
              let keep_shared := p.shared
              let index_new := hash_to_index new_size p.hash
              consAt bs index_new { p with shared := keep_shared })
            bs)
        buckets_new
    (true, { t with table_size := new_size, buckets := buckets_new })

/-- `BasicHashtable<F>::maybe_grow(int max_size, int load_factor)`
(hashtable.cpp lines 178-190).  Note that the source discards the return
value of `resize`: on allocation failure it still returns `true` with the
table unchanged. -/
def maybe_grow {α : Type} (t : BasicHashtable α) (max_size load_factor : Nat)
    (alloc_ok : Bool) : Bool × BasicHashtable α :=
  if t.table_size ≥ max_size then
    (false, t)
  else if t.number_of_entries / t.table_size > load_factor then
    (true, (resize t (min (t.table_size * 2) max_size) alloc_ok).2)
  else
    (false, t)

/-- `BasicHashtable<F>::new_entry_free_list()` (hashtable.cpp lines 49-56):
pop the head of `_free_list` if there is one. -/
def new_entry_free_list {α : Type} (t : BasicHashtable α) :
    Option (Cell α) × BasicHashtable α :=
  match t.free_list with
  | [] => (none, t)
  | e :: rest => (some e, { t with free_list := rest })

/-- Carve the next slot from the current block:
`entry = (BasicHashtableEntry<F>*)_first_free_entry; _first_free_entry += _entry_size`.
The carved memory is fresh, so only the hash written afterwards is defined. -/
def carve {α : Type} (t : BasicHashtable α) (hashValue : Nat) :
    Cell α × BasicHashtable α :=
  ({ hash := some hashValue, literal := none, next := none },
   { t with room := t.room - t.entry_size })

/-- Modelled from the spec: `log2_int` (declared in a utility header outside
the translated unit) is the floor base-2 logarithm, so that
`1 << log2_int(len)` rounds `len` DOWN to the nearest power of two, as the
source comment at hashtable.cpp line 66 records.  The recursion is fuelled so
that it computes by kernel reduction; `log2fuel_eq_log2` identifies it with
`Nat.log2`. -/
def log2fuel : Nat → Nat → Nat
  | 0, _ => 0
  | fuel + 1, n => if n ≥ 2 then log2fuel fuel (n / 2) + 1 else 0

/-- Floor base-2 logarithm (`log2_int` of the source, on `Nat`). -/
def log2_int (n : Nat) : Nat :=
  log2fuel n n

/-- `BasicHashtable<F>::new_entry(unsigned int hashValue)` (hashtable.cpp
lines 59-79).  First tries the free list; otherwise, when
`_first_free_entry + _entry_size >= _end_block` (i.e. `entry_size ≥ room`),
allocates a new block of
`entry_size * min 512 (max (table_size / 2) number_of_entries)` bytes rounded
DOWN to the nearest power of two (`len = 1 << log2_int(len)`; `log2_int`,
from a header outside the translated unit, is the floor base-2 logarithm, as
the source comment `round down to power of 2` records), then carves a slot
and sets the hash.  The block allocation uses `NEW_C_HEAP_ARRAY2` — unlike
the `..._RETURN_NULL` variant used by `resize`, it has no failure return:
when it cannot allocate, the call never returns to the caller (the VM
terminates), which the model renders as `none`. -/
def new_entry {α : Type} (t : BasicHashtable α) (alloc_ok : Bool)
    (hashValue : Nat) : Option (Cell α × BasicHashtable α) :=
  match new_entry_free_list t with
  | (some e, t1) => some ({ e with hash := some hashValue }, t1)
  | (none, t1) =>
    if t1.entry_size ≥ t1.room then
      if alloc_ok then
        let block_size := min 512 (max (t1.table_size / 2) t1.number_of_entries)
        let len := t1.entry_size * block_size
        let len := 2 ^ log2_int len  -- round down to power of 2
        let t2 := { t1 with room := len, entry_blocks := len :: t1.entry_blocks }
        some (carve t2 hashValue)
      else
        none  -- the allocation does not return on failure
    else
      some (carve t1 hashValue)

/-- `Hashtable<T, F>::allocate_new_entry(unsigned int hashValue, T obj)`
(hashtable.cpp lines 94-101): one independent C-heap allocation per entry,
then `set_hash`, `set_literal`, `set_next(NULL)`.  It reads none of the block
pool, block cursor or free-list state, so the table state comes back
unchanged. -/
def allocate_new_entry {α : Type} (t : BasicHashtable α) (hashValue : Nat)
    (obj : α) : Cell α × BasicHashtable α :=
  ({ hash := some hashValue, literal := some obj, next := some none }, t)

/-- `Hashtable<T, F>::new_entry(unsigned int hashValue, T obj)` (hashtable.cpp
lines 82-88): the block-pool allocation followed by `set_literal`. -/
def hashtable_new_entry {α : Type} (t : BasicHashtable α) (alloc_ok : Bool)
    (hashValue : Nat) (obj : α) : Option (Cell α × BasicHashtable α) :=
  (new_entry t alloc_ok hashValue).map
    (fun r => ({ r.1 with literal := some obj }, r.2))

/-- Modelled from the spec: `insert(hash, payload)` links a fresh entry as the
new head of bucket `hash_to_index(hash)` and increments `number_of_entries`
(the `add_entry` primitive lives in `hashtable.inline.hpp` /
`hashtable.hpp`, outside the translated unit; the spec fixes this behaviour
in section 4.2). -/
def insert {α : Type} (t : BasicHashtable α) (h : Nat) (x : α) :
    BasicHashtable α :=
  { t with
    buckets := consAt t.buckets (hash_to_index t.table_size h) ⟨h, x, false⟩
    number_of_entries := t.number_of_entries + 1 }

/-- The relocation loop of `resize`, flattened: push every entry of `es`
(in order) onto the head of its recomputed bucket.  `resize` performs exactly
this fold over the concatenation of the old chains. -/
def placeAll {α : Type} (n : Nat) (es : List (HEntry α))
    (bs : List (List (HEntry α))) : List (List (HEntry α)) :=
  es.foldl (fun bs p => consAt bs (hash_to_index n p.hash) p) bs

/-- Outcome of `BasicHashtable<F>::verify_table` (hashtable.cpp lines
243-278).  `verified` lists, in traversal order, the entries on which the
per-entry hook `probe->verify()` was invoked; `failure` is the diagnostic of
the final `guarantee` when it fires (`none` when verification completes
normally).  The routine only reads the table, so no table state is
returned. -/
structure VerifyResult (α : Type) where
  element_count : Nat
  max_bucket_count : Nat
  max_bucket_number : Nat
  verified : List (HEntry α)
  failure : Option String
deriving DecidableEq

/-- One iteration of the outer loop of `verify_table`: traverse bucket
`index`, invoking the hook on each probe and counting the chain, then update
`element_count` and the maximum-bucket tracking. -/
def verify_step {α : Type} (t : BasicHashtable α)
    (acc : Nat × Nat × Nat × List (HEntry α)) (index : Nat) :
    Nat × Nat × Nat × List (HEntry α) :=
  let chain := t.buckets.getD index []
  let bucket_count := chain.length
  ( acc.1 + bucket_count,
    if bucket_count > acc.2.1 then bucket_count else acc.2.1,
    if bucket_count > acc.2.1 then index else acc.2.2.1,
    acc.2.2.2 ++ chain )

/-- `BasicHashtable<F>::verify_table(const char* table_name)` (hashtable.cpp
lines 243-278): walk every bucket, run the hook on every entry, count them,
track the longest chain, then
`guarantee(number_of_entries() == element_count, "Verify of %s failed", table_name)`.
The logging that follows the guarantee is side-effect only and not
modelled. -/
def verify_table {α : Type} (t : BasicHashtable α) (table_name : String) :
    VerifyResult α :=
  let r := (List.range t.table_size).foldl (verify_step t) (0, 0, 0, [])
  { element_count := r.1
    max_bucket_count := r.2.1
    max_bucket_number := r.2.2.1
    verified := r.2.2.2
    failure :=
      if t.number_of_entries = r.1 then none
      else some ("Verify of " ++ table_name ++ " failed") }

/-! ## Concrete tables used to instantiate the theorems -/

/-- A small populated table (2 buckets, 3 entries, one shared flag set per
bucket) used to instantiate the entry-preservation theorem for `resize`. -/
def tableC1 : BasicHashtable Nat :=
  { table_size := 2
    buckets := [[⟨5, 10, true⟩, ⟨8, 11, false⟩], [⟨3, 7, true⟩]]
    entry_size := 16
    free_list := []
    room := 0
    entry_blocks := []
    number_of_entries := 3 }

/-- A small populated table used to instantiate the bucket-placement theorem
for `resize`. -/
def tableC2 : BasicHashtable Nat :=
  { table_size := 2
    buckets := [[⟨5, 10, true⟩, ⟨8, 11, false⟩], [⟨3, 7, true⟩]]
    entry_size := 16
    free_list := []
    room := 0
    entry_blocks := []
    number_of_entries := 3 }

/-- A table whose growth condition holds (`2 / 1 > 1`), used to exercise
`maybe_grow` with a failing and with a succeeding bucket allocation. -/
def tableC3 : BasicHashtable Nat :=
  { table_size := 1
    buckets := [[⟨0, 0, false⟩, ⟨1, 1, false⟩]]
    entry_size := 16
    free_list := []
    room := 0
    entry_blocks := []
    number_of_entries := 2 }

/-- The spec scenario of claim C5: `entry_size = 16`, `table_size = 10`,
`number_of_entries = 0`, empty free list, no room in the current block. -/
def tableC5 : BasicHashtable Nat :=
  { table_size := 10
    buckets := List.replicate 10 []
    entry_size := 16
    free_list := []
    room := 0
    entry_blocks := []
    number_of_entries := 0 }

/-- A table whose current block has room for exactly one more entry
(`room = entry_size = 16`) and an empty free list. -/
def tableC6 : BasicHashtable Nat :=
  { table_size := 4
    buckets := List.replicate 4 []
    entry_size := 16
    free_list := []
    room := 16
    entry_blocks := [64]
    number_of_entries := 0 }

/-- A table with one reclaimed cell on the free list (stale literal and
next-link still present on the cell). -/
def tableC6b : BasicHashtable Nat :=
  { table_size := 4
    buckets := List.replicate 4 []
    entry_size := 16
    free_list := [⟨some 9, some 1, some none⟩]
    room := 0
    entry_blocks := [64]
    number_of_entries := 1 }

/-- A table that forces the block-allocation path of `new_entry` (empty free
list, no room left in the current block). -/
def tableC7 : BasicHashtable Nat :=
  { table_size := 10
    buckets := List.replicate 10 []
    entry_size := 16
    free_list := []
    room := 0
    entry_blocks := []
    number_of_entries := 0 }

/-- The starting table of the spec growth scenario: 16 empty buckets. -/
def table16 : BasicHashtable Nat :=
  { table_size := 16
    buckets := List.replicate 16 []
    entry_size := 16
    free_list := []
    room := 0
    entry_blocks := []
    number_of_entries := 0 }

/-- `table16` after inserting 33 entries with distinct hashes 0..32. -/
def table33 : BasicHashtable Nat :=
  (List.range 33).foldl (fun t h => insert t h h) table16

/-- `table16` after inserting 48 entries with distinct hashes 0..47. -/
def table48 : BasicHashtable Nat :=
  (List.range 48).foldl (fun t h => insert t h h) table16

/-- A consistent 2-bucket table with 3 entries, used to instantiate the
verification theorem. -/
def tableC9 : BasicHashtable Nat :=
  { table_size := 2
    buckets := [[⟨4, 1, false⟩], [⟨3, 2, true⟩, ⟨5, 9, false⟩]]
    entry_size := 16
    free_list := []
    room := 0
    entry_blocks := []
    number_of_entries := 3 }

/-- A table with an empty free list and plenty of room in the current block,
used to instantiate the entry-initialization theorem. -/
def tableC10 : BasicHashtable Nat :=
  { table_size := 4
    buckets := List.replicate 4 []
    entry_size := 16
    free_list := []
    room := 64
    entry_blocks := [64]
    number_of_entries := 0 }

/-! ## Helper lemmas -/

/-- `getD` with default `[]` over a replicated empty-bucket array is always
empty. -/
theorem getD_replicate_nil {β : Type} :
    ∀ (n j : Nat), (List.replicate n ([] : List β)).getD j [] = [] := by
  intro n
  induction n with
  | zero => intro j; cases j <;> rfl
  | succ n ih =>
    intro j
    cases j with
    | zero => rfl
    | succ j => exact ih j

/-- Reading every index of a bucket array in order reproduces the array. -/
theorem map_getD_range {β : Type} (bs : List (List β)) :
    (List.range bs.length).map (fun i => bs.getD i []) = bs := by
  induction bs with
  | nil => rfl
  | cons b bs ih =>
    rw [List.length_cons, List.range_succ_eq_map, List.map_cons, List.map_map]
    have h2 : (List.range bs.length).map
        ((fun i => (b :: bs).getD i []) ∘ Nat.succ) =
        (List.range bs.length).map (fun i => bs.getD i []) := by
      apply List.map_congr_left
      intro i _
      rfl
    rw [h2, ih]
    rfl

/-- With enough fuel, the fuelled logarithm is `Nat.log2`. -/
theorem log2fuel_eq_log2 : ∀ (fuel n : Nat), n ≤ fuel → log2fuel fuel n = Nat.log2 n := by
  intro fuel
  induction fuel with
  | zero =>
    intro n hn
    have hn0 : n = 0 := Nat.le_zero.1 hn
    subst hn0
    conv_rhs => rw [Nat.log2]
    rfl
  | succ fuel ih =>
    intro n hn
    by_cases h2 : n ≥ 2
    · have hdiv : n / 2 ≤ fuel := by
        have hlt : n / 2 < n := Nat.div_lt_self (by omega) (by omega)
        omega
      show (if n ≥ 2 then log2fuel fuel (n / 2) + 1 else 0) = Nat.log2 n
      rw [if_pos h2, ih (n / 2) hdiv]
      conv_rhs => rw [Nat.log2]
      rw [if_pos h2]
    · show (if n ≥ 2 then log2fuel fuel (n / 2) + 1 else 0) = Nat.log2 n
      rw [if_neg h2]
      conv_rhs => rw [Nat.log2]
      rw [if_neg h2]

/-- `log2_int` agrees with `Nat.log2`. -/
theorem log2_int_eq_log2 (n : Nat) : log2_int n = Nat.log2 n :=
  log2fuel_eq_log2 n n (Nat.le_refl n)

/-- The rounded-down block length is the largest power of two not exceeding
the raw length. -/
theorem pow_log2_int_le (n : Nat) (hn : 0 < n) : 2 ^ log2_int n ≤ n := by
  rw [log2_int_eq_log2]
  exact Nat.log2_self_le (Nat.pos_iff_ne_zero.1 hn)

theorem lt_two_mul_pow_log2_int (n : Nat) : n < 2 * 2 ^ log2_int n := by
  rw [log2_int_eq_log2]
  calc n < 2 ^ (Nat.log2 n + 1) := Nat.lt_log2_self
    _ = 2 * 2 ^ Nat.log2 n := by rw [pow_succ, Nat.mul_comm]

theorem consAt_length {α : Type} (bs : List (List (HEntry α))) (i : Nat)
    (x : HEntry α) : (consAt bs i x).length = bs.length := by
  simp [consAt]

/-- Pushing an entry on an in-range bucket adds exactly that entry to the
flattened table contents. -/
theorem consAt_flatten_perm {α : Type} (x : HEntry α) :
    ∀ (bs : List (List (HEntry α))) (i : Nat), i < bs.length →
      List.Perm (consAt bs i x).flatten (x :: bs.flatten) := by
  intro bs
  induction bs with
  | nil => intro i h; simp at h
  | cons b bs ih =>
    intro i h
    cases i with
    | zero => simp [consAt]
    | succ i =>
      have h' : i < bs.length := by simpa using h
      have step := ih i h'
      show List.Perm (b ++ (consAt bs i x).flatten) (x :: ((b :: bs).flatten))
      have h1 : List.Perm (b ++ (consAt bs i x).flatten) (b ++ (x :: bs.flatten)) :=
        List.Perm.append_left b step
      exact List.Perm.trans h1 List.perm_middle

/-- Bucket contents of `consAt`: the pushed entry lands on bucket `i`
(when `i` is in range); every other bucket is untouched. -/
theorem consAt_getD {α : Type} (x : HEntry α) :
    ∀ (bs : List (List (HEntry α))) (i j : Nat),
      (consAt bs i x).getD j [] =
        if i = j ∧ i < bs.length then x :: bs.getD j [] else bs.getD j [] := by
  intro bs
  induction bs with
  | nil =>
    intro i j
    simp [consAt]
  | cons b bs ih =>
    intro i j
    cases i with
    | zero =>
      cases j with
      | zero => simp [consAt]
      | succ j => simp [consAt]
    | succ i =>
      cases j with
      | zero => simp [consAt]
      | succ j =>
        have step := ih i j
        show (consAt bs i x).getD j [] = _
        rw [step]
        by_cases hij : i = j
        · subst hij
          by_cases hlen : i < bs.length
          · simp [hlen, Nat.succ_lt_succ hlen]
          · have : ¬ i + 1 < (b :: bs).length := by
              simpa [Nat.succ_lt_succ_iff] using hlen
            simp [hlen, this]
        · have : ¬ (i + 1 = j + 1) := by simpa using hij
          simp [hij, this]

theorem placeAll_length {α : Type} (n : Nat) (es : List (HEntry α)) :
    ∀ bs, (placeAll n es bs).length = bs.length := by
  induction es with
  | nil => intro bs; rfl
  | cons p es ih =>
    intro bs
    show (placeAll n es (consAt bs (hash_to_index n p.hash) p)).length = _
    rw [ih, consAt_length]

/-- The relocation fold neither loses nor duplicates entries: the flattened
result is a permutation of the pushed entries followed by the initial
contents.  Requires `0 < n` so that every recomputed index is in range. -/
theorem placeAll_flatten_perm {α : Type} (n : Nat) (hn : 0 < n)
    (es : List (HEntry α)) :
    ∀ bs, bs.length = n →
      List.Perm (placeAll n es bs).flatten (es ++ bs.flatten) := by
  induction es with
  | nil =>
    intro bs _
    simp [placeAll]
  | cons p es ih =>
    intro bs hlen
    have hi : hash_to_index n p.hash < bs.length := by
      rw [hlen]
      exact Nat.mod_lt _ hn
    have h1 := ih (consAt bs (hash_to_index n p.hash) p)
      (by rw [consAt_length, hlen])
    show List.Perm (placeAll n es (consAt bs (hash_to_index n p.hash) p)).flatten _
    refine List.Perm.trans h1 ?_
    have h2 := List.Perm.append_left es
      (consAt_flatten_perm p bs (hash_to_index n p.hash) hi)
    exact List.Perm.trans h2 List.perm_middle

/-- The relocation fold preserves the placement invariant: whenever every
entry of `bs` already sits in the bucket named by its recomputed index, the
same holds after pushing any further entries. -/
theorem placeAll_placed {α : Type} (n : Nat) (es : List (HEntry α)) :
    ∀ bs, (∀ j e, e ∈ bs.getD j [] → hash_to_index n e.hash = j) →
      ∀ j e, e ∈ (placeAll n es bs).getD j [] → hash_to_index n e.hash = j := by
  induction es with
  | nil => intro bs h; exact h
  | cons p es ih =>
    intro bs h
    show ∀ j e, e ∈ (placeAll n es (consAt bs (hash_to_index n p.hash) p)).getD j [] → _
    refine ih _ ?_
    intro j e he
    rw [consAt_getD] at he
    split at he
    · rename_i hcond
      rcases List.mem_cons.1 he with rfl | hmem
      · exact hcond.1
      · exact h j e hmem
    · exact h j e he

/-- A successful `resize` is exactly the flattened relocation fold applied to
the concatenated old chains, over a cleared bucket array of the new size. -/
theorem resize_eq {α : Type} (t : BasicHashtable α) (n : Nat)
    (hwf : t.buckets.length = t.table_size) :
    resize t n true =
      (true, { t with table_size := n,
                      buckets := placeAll n t.buckets.flatten
                        (List.replicate n []) }) := by
  unfold resize placeAll
  simp only [Bool.true_eq_false, if_false]
  have hfold :
      (List.range t.table_size).foldl
        (fun bs index_old =>
          (t.buckets.getD index_old []).foldl
            (fun bs p => consAt bs (hash_to_index n p.hash)
              { p with shared := p.shared }) bs)
        (List.replicate n []) =
      t.buckets.flatten.foldl
        (fun bs p => consAt bs (hash_to_index n p.hash) p)
        (List.replicate n []) := by
    rw [List.foldl_flatten]
    rw [← hwf, ← map_getD_range t.buckets, List.foldl_map]
    rw [map_getD_range]
  rw [hfold]

/-! ## Claim C4 -/

/-- Claim C4: if allocation of the new bucket array inside `resize(new_size)`
fails, `resize` returns failure (`false`) and the table is left completely
unmodified — `table_size`, `number_of_entries`, the bucket array, every chain
and the allocator state are exactly as they were before the call. -/
theorem resize_alloc_failure_unchanged {α : Type} (t : BasicHashtable α)
    (new_size : Nat) : resize t new_size false = (false, t) :=
  rfl

/-! ## Claim C1 -/

/-- Claim C1: for every table and every `new_size > 0`, a successful
`resize(new_size)` preserves the multiset of entries (hash, payload, shared
flag) stored in the table — no entry is lost, duplicated, or has its payload
mutated, and each entry's shared flag after resize equals its value before —
and `number_of_entries` is unchanged. -/
theorem resize_preserves_entries {α : Type} (t : BasicHashtable α)
    (new_size : Nat) (ok : Bool) (t' : BasicHashtable α)
    (hpos : 0 < new_size) (hwf : t.buckets.length = t.table_size)
    (hres : resize t new_size ok = (true, t')) :
    List.Perm t'.buckets.flatten t.buckets.flatten ∧
    t'.number_of_entries = t.number_of_entries := by
  cases ok with
  | false => simp [resize] at hres
  | true =>
    rw [resize_eq t new_size hwf] at hres
    have h2 := congrArg Prod.snd hres
    subst h2
    refine ⟨?_, rfl⟩
    have h := placeAll_flatten_perm new_size hpos t.buckets.flatten
      (List.replicate new_size []) (by simp)
    simpa using h

/-- Witness for Claim C1: resizing the concrete 2-bucket table to 3 buckets
permutes the stored entries and keeps the entry count. -/
theorem resize_preserves_entries_witness :
    List.Perm ((resize tableC1 3 true).2.buckets.flatten)
      tableC1.buckets.flatten ∧
    (resize tableC1 3 true).2.number_of_entries = 3 :=
  resize_preserves_entries tableC1 3 true (resize tableC1 3 true).2
    (by decide) rfl rfl

/-! ## Claim C2 -/

/-- Claim C2: after a successful `resize(new_size)` with `new_size > 0`, the
new table size is `new_size`, the bucket array has `new_size` buckets, and
every live entry is located in the bucket whose index equals
`hash_to_index(entry.hash)` computed with the *new* `table_size` (the mapping
is recomputed from the current table size during relocation, not cached). -/
theorem resize_placement {α : Type} (t : BasicHashtable α)
    (new_size : Nat) (ok : Bool) (t' : BasicHashtable α)
    (hpos : 0 < new_size) (hwf : t.buckets.length = t.table_size)
    (hres : resize t new_size ok = (true, t')) :
    t'.table_size = new_size ∧ t'.buckets.length = new_size ∧
    (∀ j e, e ∈ t'.buckets.getD j [] → hash_to_index t'.table_size e.hash = j) := by
  cases ok with
  | false => simp [resize] at hres
  | true =>
    rw [resize_eq t new_size hwf] at hres
    have h2 := congrArg Prod.snd hres
    subst h2
    refine ⟨rfl, ?_, ?_⟩
    · rw [placeAll_length]
      simp
    · intro j e he
      refine placeAll_placed new_size t.buckets.flatten
        (List.replicate new_size []) ?_ j e he
      intro j e he'
      rw [getD_replicate_nil] at he'
      exact absurd he' (List.not_mem_nil e)

/-- Witness for Claim C2: after resizing the concrete table to 3 buckets, the
table size is 3 and the entry with hash 5 (found in bucket 2) indeed sits in
bucket `hash_to_index 3 5 = 2`. -/
theorem resize_placement_witness :
    (resize tableC2 3 true).2.table_size = 3 ∧
    hash_to_index (resize tableC2 3 true).2.table_size 5 = 2 :=
  ⟨(resize_placement tableC2 3 true (resize tableC2 3 true).2
      (by decide) rfl rfl).1,
   (resize_placement tableC2 3 true (resize tableC2 3 true).2
      (by decide) rfl rfl).2.2 2 ⟨5, 10, true⟩ (by decide)⟩

/-! ## Claim C3 -/

/-- A successful `resize` installs exactly the requested table size. -/
theorem resize_table_size {α : Type} (t : BasicHashtable α) (n : Nat) :
    (resize t n true).2.table_size = n :=
  rfl

/-- Counterexample to Claim C3 as stated: `maybe_grow` discards the return
value of `resize` (hashtable.cpp line 185), so when the bucket-array
allocation fails it still returns `true` while the table size stays at its
old value `1` instead of `min (1 * 2) 4 = 2`. -/
theorem maybe_grow_size_counterexample :
    ¬ ((maybe_grow tableC3 4 1 false).1 = true →
       (maybe_grow tableC3 4 1 false).2.table_size =
         min (tableC3.table_size * 2) 4) := by
  decide

/-- Claim C3 (amended): `maybe_grow(max_size, load_factor)` returns `true`
iff `table_size < max_size` and `number_of_entries / table_size >
load_factor` under truncating division; and whenever it returns `true` *and
the internal bucket-array allocation succeeds*, the table size afterwards
equals `min (table_size * 2) max_size`. -/
theorem maybe_grow_spec {α : Type} (t : BasicHashtable α)
    (max_size load_factor : Nat) (ok : Bool) :
    ((maybe_grow t max_size load_factor ok).1 = true ↔
      t.table_size < max_size ∧
      load_factor < t.number_of_entries / t.table_size) ∧
    ((maybe_grow t max_size load_factor true).1 = true →
      (maybe_grow t max_size load_factor true).2.table_size =
        min (t.table_size * 2) max_size) := by
  constructor
  · by_cases h1 : t.table_size ≥ max_size
    · simp [maybe_grow, h1]
    · by_cases h2 : t.number_of_entries / t.table_size > load_factor
      · simp [maybe_grow, h1, h2]
        exact Nat.lt_of_not_le h1
      · simp [maybe_grow, h1, h2]
  · intro h
    by_cases h1 : t.table_size ≥ max_size
    · simp [maybe_grow, h1] at h
    · by_cases h2 : t.number_of_entries / t.table_size > load_factor
      · simp [maybe_grow, h1, h2]
        exact resize_table_size t (min (t.table_size * 2) max_size)
      · simp [maybe_grow, h1, h2] at h

/-- Witness for the amended Claim C3: on the concrete table (size 1, two
entries) with a succeeding allocation, `maybe_grow 4 1` reports growth and
the size becomes `min (1 * 2) 4 = 2`. -/
theorem maybe_grow_spec_witness :
    ((maybe_grow tableC3 4 1 true).1 = true ↔
      tableC3.table_size < 4 ∧
      1 < tableC3.number_of_entries / tableC3.table_size) ∧
    (maybe_grow tableC3 4 1 true).2.table_size = min (tableC3.table_size * 2) 4 :=
  ⟨(maybe_grow_spec tableC3 4 1 true).1,
   (maybe_grow_spec tableC3 4 1 true).2 (by decide)⟩

/-! ## Claim C8 -/

/-- Counterexample to Claim C8 as stated: after inserting 33 entries with
distinct hashes into a 16-bucket table, `number_of_entries / table_size = 2`,
which is *not strictly greater* than the load factor 2, so `maybe_grow`
returns `false` and performs no resize — the table size stays 16, it does not
become 32. -/
theorem grow_scenario_33_counterexample :
    table33.number_of_entries = 33 ∧ table33.table_size = 16 ∧
    table33.number_of_entries / table33.table_size = 2 ∧
    (maybe_grow table33 1024 2 true).1 = false ∧
    (maybe_grow table33 1024 2 true).2 = table33 := by
  decide

/-- Claim C8 (amended): starting from `table_size = 16` and
`load_factor = 2`, after inserting 33 entries with distinct hash values the
load `number_of_entries / table_size` equals 2, which does **not** exceed the
load factor, so `maybe_grow` returns `false` and the size stays 16; the
growth to 32 triggers only once the load strictly exceeds 2 — e.g. with 48
entries (load 3) `maybe_grow` returns `true` and resizes to 32. -/
theorem grow_scenario_amended :
    table33.number_of_entries / table33.table_size = 2 ∧
    (maybe_grow table33 1024 2 true).1 = false ∧
    (maybe_grow table33 1024 2 true).2.table_size = 16 ∧
    table48.number_of_entries / table48.table_size = 3 ∧
    (maybe_grow table48 1024 2 true).1 = true ∧
    (maybe_grow table48 1024 2 true).2.table_size = 32 := by
  decide

/-! ## Claim C5 -/

/-- Claim C5: when `new_entry` must carve a new block (empty free list, no
room in the current block), the block it appends has byte length
`2 ^ log2 (entry_size * min 512 (max (table_size / 2) number_of_entries))`,
i.e. the raw length `entry_size * min 512 (max (table_size / 2)
number_of_entries)` rounded DOWN to the nearest power of two: the installed
length is a power of two, at most the raw length, and more than half of it.
The witness instantiates the spec scenario `entry_size = 16, table_size = 10,
number_of_entries = 0`: block of 5 entries, 80 raw bytes, 64 after
rounding. -/
theorem new_entry_block_size {α : Type} (t : BasicHashtable α) (h : Nat)
    (hfl : t.free_list = []) (hroom : t.room ≤ t.entry_size)
    (hpos : 0 < t.entry_size *
      min 512 (max (t.table_size / 2) t.number_of_entries)) :
    new_entry t true h =
      some (⟨some h, none, none⟩,
        { t with
            room := 2 ^ log2_int (t.entry_size *
              min 512 (max (t.table_size / 2) t.number_of_entries)) -
              t.entry_size
            entry_blocks := 2 ^ log2_int (t.entry_size *
              min 512 (max (t.table_size / 2) t.number_of_entries)) ::
              t.entry_blocks }) ∧
    2 ^ log2_int (t.entry_size *
        min 512 (max (t.table_size / 2) t.number_of_entries)) ≤
      t.entry_size * min 512 (max (t.table_size / 2) t.number_of_entries) ∧
    t.entry_size * min 512 (max (t.table_size / 2) t.number_of_entries) <
      2 * 2 ^ log2_int (t.entry_size *
        min 512 (max (t.table_size / 2) t.number_of_entries)) := by
  refine ⟨?_, ?_, ?_⟩
  · simp [new_entry, new_entry_free_list, hfl, hroom, carve]
  · exact pow_log2_int_le _ hpos
  · exact lt_two_mul_pow_log2_int _

/-- Witness for Claim C5: in the spec scenario (`entry_size = 16`,
`table_size = 10`, `number_of_entries = 0`) the carved block is
`16 * min 512 (max 5 0) = 80` raw bytes, installed as `64` bytes, and
`64 ≤ 80 < 128`. -/
theorem new_entry_block_size_witness :
    new_entry tableC5 true 0 =
      some (⟨some 0, none, none⟩,
        { tableC5 with room := 48, entry_blocks := [64] }) ∧
    (64 : Nat) ≤ 80 ∧ (80 : Nat) < 2 * 64 := by
  have h := new_entry_block_size tableC5 0 rfl (by decide) (by decide)
  refine ⟨?_, by decide, by decide⟩
  rw [h.1]
  rfl

/-! ## Claim C6 -/

/-- Counterexample to Claim C6 as stated: on a table whose current block
still has room for exactly one more entry (`room = entry_size = 16`, so the
block does *not* lack room for one more entry) and whose free list is empty,
`new_entry` nevertheless allocates a new block — the block list grows from
`[64]` to `[32, 64]`.  The guard at hashtable.cpp line 63 uses `>=`, so the
last exactly-fitting slot of every block is abandoned. -/
theorem new_entry_block_despite_room_counterexample :
    new_entry tableC6 true 7 =
      some (⟨some 7, none, none⟩,
        { tableC6 with room := 16, entry_blocks := [32, 64] }) ∧
    ¬ tableC6.room < tableC6.entry_size := by
  decide

/-- Claim C6 (amended): if the free list is non-empty, `new_entry` pops and
returns its head (with only the hash re-initialized) and changes nothing but
the free list — in particular no block is carved or allocated; and a new
block is allocated only when the free list is empty and the remaining room in
the current block is *at most* one entry's size (`room ≤ entry_size`; at
exactly one entry of remaining room the code still opens a new block). -/
theorem new_entry_free_list_first {α : Type} (t : BasicHashtable α)
    (ok : Bool) (h : Nat) :
    (∀ e rest, t.free_list = e :: rest →
      new_entry t ok h =
        some ({ e with hash := some h }, { t with free_list := rest })) ∧
    (∀ c t', new_entry t ok h = some (c, t') →
      t'.entry_blocks ≠ t.entry_blocks →
      t.free_list = [] ∧ t.room ≤ t.entry_size) := by
  constructor
  · intro e rest hfl
    simp [new_entry, new_entry_free_list, hfl]
  · intro c t' hsome hblocks
    cases hfl : t.free_list with
    | cons e rest =>
      have hne : new_entry t ok h =
          some ({ e with hash := some h }, { t with free_list := rest }) := by
        simp [new_entry, new_entry_free_list, hfl]
      rw [hne] at hsome
      injection hsome with hpair
      injection hpair with hc ht'
      rw [← ht'] at hblocks
      exact absurd rfl hblocks
    | nil =>
      by_cases hroom : t.entry_size ≥ t.room
      · exact ⟨rfl, hroom⟩
      · have hne : new_entry t ok h =
            some (⟨some h, none, none⟩,
              { t with room := t.room - t.entry_size }) := by
          simp [new_entry, new_entry_free_list, hfl, hroom, carve]
        rw [hne] at hsome
        injection hsome with hpair
        injection hpair with hc ht'
        rw [← ht'] at hblocks
        exact absurd rfl hblocks

/-- Witness for the amended Claim C6: popping the single reclaimed cell of
the concrete table returns it with only the hash overwritten (stale literal
and next-link intact) and leaves every other component — blocks included —
unchanged. -/
theorem new_entry_free_list_first_witness :
    new_entry tableC6b true 7 =
      some (⟨some 7, some 1, some none⟩, { tableC6b with free_list := [] }) :=
  (new_entry_free_list_first tableC6b true 7).1 ⟨some 9, some 1, some none⟩ [] rfl

/-! ## Claim C7 -/

/-- Counterexample to Claim C7 as stated: when the block allocation fails on
a table that needs a new block, `new_entry` does *not* return a failure value
to its caller — the call never returns normally at all (modelled as `none`):
the allocation at hashtable.cpp line 68 uses `NEW_C_HEAP_ARRAY2`, which,
unlike the `NEW_C_HEAP_ARRAY2_RETURN_NULL` used by `resize` at line 138, has
no failure return, and `new_entry` contains no failure check or failure
return path. -/
theorem new_entry_oom_counterexample :
    new_entry tableC7 false 3 = none := by
  decide

/-- Claim C7 (amended): a failing block allocation is never reported to
`new_entry`'s caller: with a failing allocation the call does not return
normally exactly when a new block is needed (empty free list and
`room ≤ entry_size`), and with a succeeding allocation `new_entry` always
returns an entry.  Only `resize`'s bucket-array allocation reports failure by
a return value. -/
theorem new_entry_alloc_failure_behavior {α : Type} (t : BasicHashtable α)
    (h : Nat) :
    (new_entry t false h = none ↔
      t.free_list = [] ∧ t.room ≤ t.entry_size) ∧
    (new_entry t true h).isSome = true := by
  constructor
  · constructor
    · intro hn
      cases hfl : t.free_list with
      | cons e rest =>
        rw [show new_entry t false h =
            some ({ e with hash := some h }, { t with free_list := rest })
          from by simp [new_entry, new_entry_free_list, hfl]] at hn
        cases hn
      | nil =>
        by_cases hroom : t.entry_size ≥ t.room
        · exact ⟨rfl, hroom⟩
        · rw [show new_entry t false h =
              some (⟨some h, none, none⟩,
                { t with room := t.room - t.entry_size })
            from by simp [new_entry, new_entry_free_list, hfl, hroom, carve]] at hn
          cases hn
    · rintro ⟨hfl, hroom⟩
      simp [new_entry, new_entry_free_list, hfl, hroom]
  · cases hfl : t.free_list with
    | cons e rest => simp [new_entry, new_entry_free_list, hfl]
    | nil =>
      by_cases hroom : t.entry_size ≥ t.room
      · simp [new_entry, new_entry_free_list, hfl, hroom]
      · simp [new_entry, new_entry_free_list, hfl, hroom]

/-- Witness for the amended Claim C7 at the concrete block-needing table:
with a failing allocation the call does not return; with a succeeding one it
does. -/
theorem new_entry_alloc_failure_behavior_witness :
    (new_entry tableC7 false 3 = none ↔
      tableC7.free_list = [] ∧ tableC7.room ≤ tableC7.entry_size) ∧
    (new_entry tableC7 true 3).isSome = true :=
  new_entry_alloc_failure_behavior tableC7 3

/-! ## Claim C10 -/

/-- Claim C10: `allocate_new_entry(hash, payload)` returns an entry whose
hash equals the given hash, whose literal equals the given payload, and whose
next-link is NULL, and it leaves the whole table state — block pool, block
cursor, free list — untouched; whereas the block-pool path `new_entry`
initializes only the hash field: a carved entry comes back with literal and
next-link unwritten, and a free-list entry keeps its stale literal and
next-link. -/
theorem allocate_new_entry_spec {α : Type} (t : BasicHashtable α) (h : Nat)
    (obj : α) :
    allocate_new_entry t h obj =
      ({ hash := some h, literal := some obj, next := some none }, t) ∧
    (∀ (ok : Bool) c t', t.free_list = [] → new_entry t ok h = some (c, t') →
      c = { hash := some h, literal := none, next := none }) ∧
    (∀ (ok : Bool) e rest, t.free_list = e :: rest →
      new_entry t ok h =
        some ({ e with hash := some h }, { t with free_list := rest })) := by
  refine ⟨rfl, ?_, ?_⟩
  · intro ok c t' hfl hsome
    by_cases hroom : t.entry_size ≥ t.room
    · cases ok with
      | false => simp [new_entry, new_entry_free_list, hfl, hroom] at hsome
      | true =>
        rw [show new_entry t true h =
            some (⟨some h, none, none⟩,
              { t with
                  room := 2 ^ log2_int (t.entry_size *
                    min 512 (max (t.table_size / 2) t.number_of_entries)) -
                    t.entry_size
                  entry_blocks := 2 ^ log2_int (t.entry_size *
                    min 512 (max (t.table_size / 2) t.number_of_entries)) ::
                    t.entry_blocks })
          from by simp [new_entry, new_entry_free_list, hfl, hroom, carve]] at hsome
        exact (congrArg Prod.fst (Option.some.inj hsome)).symm
    · rw [show new_entry t ok h =
          some (⟨some h, none, none⟩,
            { t with room := t.room - t.entry_size })
        from by simp [new_entry, new_entry_free_list, hfl, hroom, carve]] at hsome
      exact (congrArg Prod.fst (Option.some.inj hsome)).symm
  · intro ok e rest hfl
    simp [new_entry, new_entry_free_list, hfl]

/-- Witness for Claim C10: on the concrete table, the per-entry path returns
a fully initialized cell and the untouched table, while the carving path
returns a cell with only the hash written. -/
theorem allocate_new_entry_spec_witness :
    allocate_new_entry tableC10 5 (42 : Nat) =
      ({ hash := some 5, literal := some 42, next := some none }, tableC10) ∧
    (⟨some 5, none, none⟩ : Cell Nat) =
      { hash := some 5, literal := none, next := none } :=
  ⟨(allocate_new_entry_spec tableC10 5 42).1,
   (allocate_new_entry_spec tableC10 5 42).2.1 true ⟨some 5, none, none⟩
     { tableC10 with room := 48 } rfl (by decide)⟩

/-! ## Claim C9 -/

/-- Running the verification loop over any index list accumulates the
traversed chains (in order) into the visited list and their total length into
the element count, independently of the maximum-bucket tracking. -/
theorem verify_fold {α : Type} (t : BasicHashtable α) :
    ∀ (l : List Nat) (e0 m0 b0 : Nat) (v0 : List (HEntry α)),
      (l.foldl (verify_step t) (e0, m0, b0, v0)).1 =
        e0 + (l.map (fun i => (t.buckets.getD i []).length)).sum ∧
      (l.foldl (verify_step t) (e0, m0, b0, v0)).2.2.2 =
        v0 ++ (l.map (fun i => t.buckets.getD i [])).flatten := by
  intro l
  induction l with
  | nil =>
    intro e0 m0 b0 v0
    simp
  | cons i l ih =>
    intro e0 m0 b0 v0
    have hstep : verify_step t (e0, m0, b0, v0) i =
        (e0 + (t.buckets.getD i []).length,
         if (t.buckets.getD i []).length > m0
           then (t.buckets.getD i []).length else m0,
         if (t.buckets.getD i []).length > m0 then i else b0,
         v0 ++ t.buckets.getD i []) := rfl
    rw [List.foldl_cons, hstep]
    constructor
    · rw [(ih _ _ _ _).1]
      simp [Nat.add_assoc]
    · rw [(ih _ _ _ _).2]
      simp

/-- Claim C9: `verify_table` traverses every bucket and invokes the per-entry
verify hook on every chain-reachable entry (in traversal order, `verified` is
exactly the concatenation of all chains), counts them all, and its
`guarantee` fires — with the table name in the diagnostic — if and only if
the counted total differs from the recorded `number_of_entries`; the routine
reads but never writes the table, so a mismatch is never silently repaired,
and verification completes normally exactly when the counts agree. -/
theorem verify_table_spec {α : Type} (t : BasicHashtable α) (name : String)
    (hwf : t.buckets.length = t.table_size) :
    (verify_table t name).verified = t.buckets.flatten ∧
    (verify_table t name).element_count = t.buckets.flatten.length ∧
    ((verify_table t name).failure = none ↔
      t.number_of_entries = t.buckets.flatten.length) ∧
    (∀ s, (verify_table t name).failure = some s →
      s = "Verify of " ++ name ++ " failed") := by
  have hv : ((List.range t.table_size).foldl (verify_step t)
      (0, 0, 0, [])).2.2.2 = t.buckets.flatten := by
    rw [(verify_fold t (List.range t.table_size) 0 0 0 []).2, ← hwf,
      map_getD_range]
    simp
  have he : ((List.range t.table_size).foldl (verify_step t)
      (0, 0, 0, [])).1 = t.buckets.flatten.length := by
    rw [(verify_fold t (List.range t.table_size) 0 0 0 []).1, ← hwf]
    rw [List.length_flatten]
    rw [show (fun i => (t.buckets.getD i []).length) =
      (List.length ∘ fun i => t.buckets.getD i []) from rfl]
    rw [← List.map_map, map_getD_range]
    simp
  refine ⟨?_, ?_, ?_, ?_⟩
  · show ((List.range t.table_size).foldl (verify_step t)
      (0, 0, 0, [])).2.2.2 = _
    exact hv
  · show ((List.range t.table_size).foldl (verify_step t)
      (0, 0, 0, [])).1 = _
    exact he
  · show (if t.number_of_entries = ((List.range t.table_size).foldl
        (verify_step t) (0, 0, 0, [])).1 then none
      else some ("Verify of " ++ name ++ " failed")) = none ↔ _
    rw [he]
    by_cases hc : t.number_of_entries = t.buckets.flatten.length
    · simp [hc]
    · simp [hc]
  · intro s
    show (if t.number_of_entries = ((List.range t.table_size).foldl
        (verify_step t) (0, 0, 0, [])).1 then none
      else some ("Verify of " ++ name ++ " failed")) = some s → _
    by_cases hc : t.number_of_entries = ((List.range t.table_size).foldl
        (verify_step t) (0, 0, 0, [])).1
    · simp [hc]
    · simp [hc]
      intro hs
      exact hs.symm

/-- Witness for Claim C9 at the concrete consistent 2-bucket table with 3
entries: the hook visits precisely the three chained entries, the count is 3,
and verification completes without firing the guarantee. -/
theorem verify_table_spec_witness :
    (verify_table tableC9 "sym").verified = tableC9.buckets.flatten ∧
    (verify_table tableC9 "sym").element_count =
      tableC9.buckets.flatten.length ∧
    ((verify_table tableC9 "sym").failure = none ↔
      tableC9.number_of_entries = tableC9.buckets.flatten.length) ∧
    (∀ s, (verify_table tableC9 "sym").failure = some s →
      s = "Verify of " ++ "sym" ++ " failed") :=
  verify_table_spec tableC9 "sym" rfl

end JdkHashtable
